import Mathlib

/-!
Verification of the tiered relevance-filtering and ranking pipeline specified
for this repository (scout → dedup → bulk-score → rank&filter → deep-analyze →
persist), together with the article content-collection schema.

The pipeline itself is described in the repository's planning documents
(`docs/AUTOMATED-KNOWLEDGE-BASE.md`, the implementation-plan documents) but has
no implementation checked in; where a definition embeds that missing code it is
modelled from the spec and its doc comment says so.  The article schema
(`src/content/config.ts`) is real code and is embedded from the source.
-/

namespace Pipeline

/-- Modelled from the spec: the source-type enum of a CandidateItem
(spec §3, "sourceType: enum {search, paper, repo, video, feed}"); the
repository has no implementation of the pipeline's data model. -/
inductive SourceType where
  | search | paper | repo | video | feed
deriving DecidableEq, Repr

/-- Modelled from the spec: a CandidateItem, one discovered piece of content
(spec §3); the repository has no implementation of the pipeline's data model. -/
structure CandidateItem where
  id : String
  sourceType : SourceType
  title : String
  url : String
  rawText : String
  discoveredAt : String
deriving DecidableEq, Repr

/-- Modelled from the spec: a ScoredItem, a CandidateItem plus Tier-1 output
(spec §3).  The relevance score uses the declared integer scale 0..`scoreMax`
(the 1–10 scale of the planning documents, with 0 reserved for scoring
failures per spec §4.3). -/
structure ScoredItem where
  id : String
  sourceType : SourceType
  title : String
  url : String
  summary : String
  relevanceScore : Nat
  topics : List String
  recommendDeepDive : Bool
  scoringFailed : Bool
deriving DecidableEq, Repr

/-- Modelled from the spec: the single declared upper bound of the fixed
relevance-score scale (spec §3: "the scale must be declared once and used
consistently across the pipeline"; the planning documents use a 1–10 scale). -/
def scoreMax : Nat := 10

/-- Modelled from the spec: coercion of a raw classifier score into the
declared numeric range (spec §4.3: "relevanceScore must be coerced into the
declared numeric range"). -/
def coerceScore (s : Int) : Nat := (min s (Int.ofNat scoreMax)).toNat

/-- Modelled from the spec: the Bulk Scorer's per-item contract (spec §4.3).
The underlying classifier is an external collaborator, abstracted as a
function returning `none` when its output has a malformed or missing score;
in that case the item is kept with `relevanceScore = 0` and
`scoringFailed = true` rather than dropped. -/
def bulkScore (classify : CandidateItem → Option (Int × String × List String × Bool))
    (c : CandidateItem) : ScoredItem :=
  match classify c with
  | some (s, summary, topics, rec) =>
      { id := c.id, sourceType := c.sourceType, title := c.title, url := c.url,
        summary := summary, relevanceScore := coerceScore s, topics := topics,
        recommendDeepDive := rec, scoringFailed := false }
  | none =>
      { id := c.id, sourceType := c.sourceType, title := c.title, url := c.url,
        summary := "", relevanceScore := 0, topics := [],
        recommendDeepDive := false, scoringFailed := true }

/-- Code-point-lexicographic comparison of character lists, the order in
which string ids compare in the host language. -/
def charListLe : List Char → List Char → Bool
  | [], _ => true
  | _ :: _, [] => false
  | x :: xs, y :: ys => if x = y then charListLe xs ys else decide (x < y)

/-- Code-point-lexicographic string comparison (ascending id order). -/
def strLe (a b : String) : Bool := charListLe a.toList b.toList

/-- Modelled from the spec: the ranking order of the Rank & Filter stage
(spec §4.4): descending by `relevanceScore`, ties broken by ascending `id`. -/
def rankLe (a b : ScoredItem) : Prop :=
  b.relevanceScore < a.relevanceScore ∨
    (a.relevanceScore = b.relevanceScore ∧ strLe a.id b.id = true)

instance rankLe.dec : DecidableRel rankLe := fun a b =>
  inferInstanceAs (Decidable (b.relevanceScore < a.relevanceScore ∨
    (a.relevanceScore = b.relevanceScore ∧ strLe a.id b.id = true)))

/-- Modelled from the spec: the Rank & Filter stage (the planning documents
call it `rank_for_deep_dive` but never define it).  Spec §4.4: filter to
`relevanceScore >= threshold`, sort descending by score with ties broken by
ascending `id`, take the first `cap` items. -/
def rank_for_deep_dive (threshold cap : Nat) (items : List ScoredItem) :
    List ScoredItem :=
  ((items.filter (fun it => threshold ≤ it.relevanceScore)).insertionSort rankLe).take cap

/-- Modelled from the spec: the Deduplicator's partition (spec §4.2): drop
candidates whose `id` is in the seen-id history, and for in-run duplicates
keep the first encountered in the fixed iteration order. -/
def dedupGo : List CandidateItem → List String → List CandidateItem
  | [], _ => []
  | c :: rest, seen =>
      if c.id ∈ seen then dedupGo rest seen
      else c :: dedupGo rest (c.id :: seen)

/-- Modelled from the spec: result of the Deduplicator: the `new` partition
and the seen-id registry as written back at the end of the stage (spec §5:
the registry is read before the run and written once at the end). -/
structure DedupResult where
  new : List CandidateItem
  updatedSeen : List String
deriving DecidableEq, Repr

/-- Modelled from the spec: the Deduplicator (spec §4.2). -/
def dedup (candidates : List CandidateItem) (seen : List String) : DedupResult :=
  let new := dedupGo candidates seen
  { new := new, updatedSeen := seen ++ new.map (fun c => c.id) }

/-- Modelled from the spec: a Tier-2 Analysis record (spec §3). -/
structure Analysis where
  keyContribution : String
  techniques : List (String × String)
  codeSnippets : List (String × String × String)
  suggestedUpdates : List (String × String × String)
deriving DecidableEq, Repr

/-- Modelled from the spec: one item entry of the persisted RunBatch
(spec §6, output schema). -/
structure BatchItem where
  id : String
  sourceType : SourceType
  title : String
  url : String
  relevanceScore : Nat
  summary : String
  topics : List String
  analysis : Option Analysis
  scoringFailed : Bool
  analysisFailed : Bool
deriving DecidableEq, Repr

/-- Modelled from the spec: the stats block of a RunBatch (spec §6). -/
structure Stats where
  sourcesChecked : Nat
  itemsFound : Nat
  itemsPromoted : Nat
deriving DecidableEq, Repr

/-- Modelled from the spec: the RunBatch, the persisted unit of output for
one pipeline execution (spec §3, §6). -/
structure RunBatch where
  period : String
  items : List BatchItem
  stats : Stats
deriving DecidableEq, Repr

/-- Modelled from the spec: the Source Fetcher's aggregation over adapter
results (spec §4.1): each adapter independently either yields candidate items
or fails; a failure is treated as zero items from that source and the run
continues with the remaining adapters. -/
def collectFetched (results : List (Except String (List CandidateItem))) :
    List CandidateItem :=
  results.foldr (fun r acc => match r with
    | Except.ok items => items ++ acc
    | Except.error _ => acc) []

/-- Modelled from the spec: the count of successfully checked sources; a
failed adapter is not counted (spec §8, scenario 4: with one failed adapter
out of five, `stats.sourcesChecked` reflects 4, not 5). -/
def countOk (results : List (Except String (List CandidateItem))) : Nat :=
  (results.filter (fun r => match r with
    | Except.ok _ => true
    | Except.error _ => false)).length

/-- Modelled from the spec: build the RunBatch item entry for a promoted
item (spec §4.5): the external analyzer either returns an Analysis or fails,
in which case the item is recorded with `analysisFailed = true` and a null
analysis rather than aborting the batch. -/
def mkPromotedEntry (analyze : ScoredItem → Option Analysis) (it : ScoredItem) :
    BatchItem :=
  match analyze it with
  | some a =>
      { id := it.id, sourceType := it.sourceType, title := it.title,
        url := it.url, relevanceScore := it.relevanceScore,
        summary := it.summary, topics := it.topics, analysis := some a,
        scoringFailed := it.scoringFailed, analysisFailed := false }
  | none =>
      { id := it.id, sourceType := it.sourceType, title := it.title,
        url := it.url, relevanceScore := it.relevanceScore,
        summary := it.summary, topics := it.topics, analysis := none,
        scoringFailed := it.scoringFailed, analysisFailed := true }

/-- Modelled from the spec: the RunBatch item entry for an item that was not
promoted past the filter: it carries a null analysis (spec §6). -/
def mkPlainEntry (it : ScoredItem) : BatchItem :=
  { id := it.id, sourceType := it.sourceType, title := it.title,
    url := it.url, relevanceScore := it.relevanceScore,
    summary := it.summary, topics := it.topics, analysis := none,
    scoringFailed := it.scoringFailed, analysisFailed := false }

/-- Modelled from the spec: assemble the RunBatch's item list from the full
scored set: one entry per ScoredItem, deterministically ordered by the
Rank & Filter sort (spec §5, ordering guarantee), with an Analysis attached
exactly to the items promoted by Rank & Filter (matched by their stable
`id`). -/
def assembleItems (threshold cap : Nat) (analyze : ScoredItem → Option Analysis)
    (scored : List ScoredItem) : List BatchItem :=
  let promoted := rank_for_deep_dive threshold cap scored
  (scored.insertionSort rankLe).map (fun it =>
    if promoted.any (fun p => p.id == it.id) then mkPromotedEntry analyze it
    else mkPlainEntry it)

/-- Modelled from the spec: the scored set of one run: every candidate
surviving dedup is scored exactly once (spec §3, ScoredItem invariant). -/
def pipelineScored (classify : CandidateItem → Option (Int × String × List String × Bool))
    (fetchResults : List (Except String (List CandidateItem)))
    (seen : List String) : List ScoredItem :=
  (dedup (collectFetched fetchResults) seen).new.map (bulkScore classify)

/-- Modelled from the spec: one full pipeline execution, assembling the
RunBatch from the adapter results, the seen-id history and the two external
model collaborators (spec §2 data flow, §6 output schema). -/
def runPipeline (threshold cap : Nat)
    (classify : CandidateItem → Option (Int × String × List String × Bool))
    (analyze : ScoredItem → Option Analysis)
    (fetchResults : List (Except String (List CandidateItem)))
    (seen : List String) (period : String) : RunBatch :=
  let scored := pipelineScored classify fetchResults seen
  { period := period,
    items := assembleItems threshold cap analyze scored,
    stats := { sourcesChecked := countOk fetchResults,
               itemsFound := (collectFetched fetchResults).length,
               itemsPromoted := (rank_for_deep_dive threshold cap scored).length } }

/-- Modelled from the spec: the durable store as seen through the Result
Persister (spec §4.6): a staging (temporary) location that readers never see,
and the published, period-keyed archive that readers do see. -/
structure StorageState where
  temp : Option (String × List BatchItem)
  published : List (String × RunBatch)
deriving Repr

/-- Modelled from the spec: what a reader of the archive observes for a given
period: only published documents, never the staging location. -/
def readVisible (s : StorageState) (period : String) : Option RunBatch :=
  (s.published.find? (fun kv => kv.fst == period)).map (fun kv => kv.snd)

/-- Modelled from the spec: one storage operation of the Result Persister:
either an incremental write to the temporary location, or the single atomic
publish (rename/replace) of the fully assembled batch (spec §4.6). -/
inductive PersistOp where
  | stage : String → List BatchItem → PersistOp
  | publishTo : String → RunBatch → PersistOp

/-- Modelled from the spec: effect of one storage operation on the store. -/
def applyOp (s : StorageState) (op : PersistOp) : StorageState :=
  match op with
  | PersistOp.stage p items => { s with temp := some (p, items) }
  | PersistOp.publishTo p b => { temp := none, published := (p, b) :: s.published }

/-- Modelled from the spec: run a sequence of storage operations. -/
def runOps (s : StorageState) (ops : List PersistOp) : StorageState :=
  ops.foldl applyOp s

/-- Modelled from the spec: the Result Persister's write plan for one
RunBatch: write the batch incrementally to the temporary location, then
atomically publish only after the full batch is assembled (spec §4.6).
Killing the process part-way corresponds to executing a proper prefix of
this plan. -/
def persistPlan (b : RunBatch) : List PersistOp :=
  (List.range b.items.length).map
    (fun n => PersistOp.stage b.period (b.items.take (n + 1)))
    ++ [PersistOp.publishTo b.period b]

/-- Modelled from the spec: the Result Persister with its failure semantics
(spec §7, StorageFailure): if the publish step cannot run, the run exits
non-zero and only staging writes have happened; on success the whole plan
runs and the exit code is zero. -/
def persist (publishOk : Bool) (s : StorageState) (b : RunBatch) :
    StorageState × Nat :=
  if publishOk then (runOps s (persistPlan b), 0)
  else (runOps s ((persistPlan b).take b.items.length), 1)

end Pipeline

namespace ContentConfig

/-- A JSON-like frontmatter value, as validated by the zod schema in
`src/content/config.ts`. -/
inductive Json where
  | null : Json
  | bool : Bool → Json
  | num : Int → Json
  | str : String → Json
  | arr : List Json → Json

/-- An article frontmatter object, projected onto the fields the schema in
`src/content/config.ts` looks at (`z.object` ignores unknown keys); a `none`
field is an absent key. -/
structure Frontmatter where
  title : Option Json
  description : Option Json
  category : Option Json
  date : Option Json
  type : Option Json
  source_url : Option Json
  shared_by : Option Json
  tags : Option Json
  featured : Option Json

/-- The parsed article entry produced by the schema on success, with the
zod defaults applied (`tags` defaults to `[]`, `featured` to `false`). -/
structure ArticleEntry where
  title : String
  description : String
  category : String
  date : String
  type : String
  source_url : Option String
  shared_by : Option String
  tags : List String
  featured : Bool
deriving DecidableEq

/-- The regex `^\d{4}-\d{2}-\d{2}$` of `src/content/config.ts` line 9, as a
whole-string check (JavaScript `$` without the `m` flag matches only the very
end of the string, and `\d` is `[0-9]`). -/
def dateMatches (s : String) : Bool :=
  match s.toList with
  | [a, b, c, d, h1, e, f, h2, g, h] =>
      a.isDigit && b.isDigit && c.isDigit && d.isDigit && h1 == '-' &&
      e.isDigit && f.isDigit && h2 == '-' && g.isDigit && h.isDigit
  | _ => false

/-- `z.string()` on a required field: accepts exactly a string value. -/
def reqString : Option Json → Option String
  | some (Json.str s) => some s
  | _ => none

/-- `z.string().url().optional()` (config.ts line 11): absent is accepted as
absent; present must be a string passing the URL check.  URL validity is the
host language's URL parser, taken as a parameter. -/
def optUrl (validURL : String → Bool) : Option Json → Option (Option String)
  | none => some none
  | some (Json.str s) => if validURL s then some (some s) else none
  | some _ => none

/-- `z.string().optional()` (config.ts line 12). -/
def optString : Option Json → Option (Option String)
  | none => some none
  | some (Json.str s) => some (some s)
  | some _ => none

/-- `z.array(z.string()).default([])` (config.ts line 13): absent defaults to
the empty array; present must be an array whose every element is a string. -/
def tagsField : Option Json → Option (List String)
  | none => some []
  | some (Json.arr xs) =>
      xs.foldr (fun x acc => match x, acc with
        | Json.str s, some l => some (s :: l)
        | _, _ => none) (some [])
  | some _ => none

/-- `z.boolean().default(false)` (config.ts line 14). -/
def featuredField : Option Json → Option Bool
  | none => some false
  | some (Json.bool b) => some b
  | some _ => none

/-- The `articles` collection schema of `src/content/config.ts` lines 3–16:
parse a frontmatter object, returning the accepted entry or rejecting. -/
def articlesParse (validURL : String → Bool) (fm : Frontmatter) :
    Option ArticleEntry :=
  match reqString fm.title, reqString fm.description, reqString fm.category,
      reqString fm.date, reqString fm.type with
  | some t, some d, some c, some dt, some ty =>
      if dateMatches dt && (ty == "topic" || ty == "article") then
        match optUrl validURL fm.source_url, optString fm.shared_by,
            tagsField fm.tags, featuredField fm.featured with
        | some su, some sb, some tg, some ft =>
            some { title := t, description := d, category := c, date := dt,
                   type := ty, source_url := su, shared_by := sb,
                   tags := tg, featured := ft }
        | _, _, _, _ => none
      else none
  | _, _, _, _, _ => none

/-- The acceptance condition exactly as the claim words it: title,
description and category are strings, date is a string matching the date
pattern, type is exactly one of the two enum values, and source_url and
shared_by, when present, are a valid URL string and a string respectively
(nothing is required of tags or featured). -/
def claimAccepts (validURL : String → Bool) (fm : Frontmatter) : Bool :=
  (reqString fm.title).isSome && (reqString fm.description).isSome &&
  (reqString fm.category).isSome &&
  (match fm.date with
    | some (Json.str s) => dateMatches s
    | _ => false) &&
  (match fm.type with
    | some (Json.str s) => s == "topic" || s == "article"
    | _ => false) &&
  (match fm.source_url with
    | none => true
    | some (Json.str s) => validURL s
    | some _ => false) &&
  (match fm.shared_by with
    | none => true
    | some (Json.str _) => true
    | some _ => false)

/-- The acceptance condition amended with the typing of tags and featured
when they are present, matching config.ts lines 13–14. -/
def amendedAccepts (validURL : String → Bool) (fm : Frontmatter) : Bool :=
  claimAccepts validURL fm &&
  (tagsField fm.tags).isSome && (featuredField fm.featured).isSome

end ContentConfig

namespace Pipeline

/-- Concrete scored item with id "a" and score 7, from spec §8 scenario 3. -/
def exItemA : ScoredItem :=
  { id := "a", sourceType := SourceType.paper, title := "A", url := "ua",
    summary := "sa", relevanceScore := 7, topics := [], recommendDeepDive := true,
    scoringFailed := false }

/-- Concrete scored item with id "b" and score 7, from spec §8 scenario 3. -/
def exItemB : ScoredItem :=
  { id := "b", sourceType := SourceType.video, title := "B", url := "ub",
    summary := "sb", relevanceScore := 7, topics := [], recommendDeepDive := true,
    scoringFailed := false }

/-- Concrete candidate item used in example runs. -/
def exCand (i : String) : CandidateItem :=
  { id := i, sourceType := SourceType.feed, title := i, url := i,
    rawText := "text", discoveredAt := "2025-01-31" }

/-- Concrete classifier that always returns score 9. -/
def exClassify : CandidateItem → Option (Int × String × List String × Bool) :=
  fun _ => some (9, "summary", ["agents"], true)

/-- Concrete classifier that always returns a malformed or missing score. -/
def exClassifyNone : CandidateItem → Option (Int × String × List String × Bool) :=
  fun _ => none

/-- Concrete analyzer that always fails. -/
def exAnalyzeNone : ScoredItem → Option Analysis := fun _ => none

/-- Concrete adapter results for spec §8 scenario 4: five adapters, the
second one fails with a timeout, four succeed. -/
def exFetch5 : List (Except String (List CandidateItem)) :=
  [Except.ok [exCand "a"], Except.error "timeout", Except.ok [exCand "b"],
   Except.ok [exCand "c"], Except.ok [exCand "d"]]

/-- Concrete RunBatch used to exercise the persister. -/
def exBatch : RunBatch :=
  { period := "2025-W05",
    items := [mkPlainEntry exItemA],
    stats := { sourcesChecked := 1, itemsFound := 1, itemsPromoted := 0 } }

/-- Concrete previously-published RunBatch for an earlier period. -/
def exOldBatch : RunBatch :=
  { period := "2025-W04",
    items := [],
    stats := { sourcesChecked := 0, itemsFound := 0, itemsPromoted := 0 } }

/-- Concrete store holding one previously-published batch. -/
def exStore : StorageState :=
  { temp := none, published := [("2025-W04", exOldBatch)] }

end Pipeline

namespace ContentConfig

/-- Concrete frontmatter accepted by the articles schema. -/
def exGoodFm : Frontmatter :=
  { title := some (Json.str "Skills Pattern"),
    description := some (Json.str "Deep dive"),
    category := some (Json.str "patterns"),
    date := some (Json.str "2025-01-31"),
    type := some (Json.str "topic"),
    source_url := none, shared_by := none, tags := none, featured := none }

/-- Concrete frontmatter whose tags field is a number rather than an array
of strings. -/
def exBadTagsFm : Frontmatter :=
  { exGoodFm with tags := some (Json.num 3) }

/-- Concrete URL-validity predicate accepting everything, standing in for the
host URL parser. -/
def exUrlOk : String → Bool := fun _ => true

end ContentConfig

namespace Pipeline

/-- Lexicographic character comparison is total. -/
theorem charListLe_total : ∀ xs ys : List Char,
    charListLe xs ys = true ∨ charListLe ys xs = true
  | [], _ => Or.inl rfl
  | _ :: _, [] => Or.inr rfl
  | x :: xs, y :: ys => by
    by_cases h : x = y
    · subst h
      simpa [charListLe] using charListLe_total xs ys
    · have hyx : ¬ y = x := fun e => h e.symm
      rcases lt_trichotomy x y with hlt | heq | hgt
      · left; simp [charListLe, h, hlt]
      · exact absurd heq h
      · right; simp [charListLe, hyx, hgt]

/-- Lexicographic character comparison is transitive. -/
theorem charListLe_trans : ∀ xs ys zs : List Char,
    charListLe xs ys = true → charListLe ys zs = true → charListLe xs zs = true
  | [], _, _ => by simp [charListLe]
  | x :: xs, [], _ => by simp [charListLe]
  | x :: xs, y :: ys, [] => by simp [charListLe]
  | x :: xs, y :: ys, z :: zs => by
    simp only [charListLe]
    by_cases hxy : x = y <;> by_cases hyz : y = z
    · subst hxy; subst hyz
      simp only [if_pos rfl]
      exact charListLe_trans xs ys zs
    · subst hxy
      simp only [if_pos rfl, if_neg hyz]
      exact fun _ h => h
    · subst hyz
      simp only [if_pos rfl, if_neg hxy]
      exact fun h _ => h
    · simp only [if_neg hxy, if_neg hyz, decide_eq_true_eq]
      by_cases hxz : x = z
      · subst hxz
        intro h1 h2
        exact absurd (h1.trans h2) (lt_irrefl x)
      · simp only [if_neg hxz, decide_eq_true_eq]
        exact fun h1 h2 => h1.trans h2

/-- Lexicographic character comparison is antisymmetric. -/
theorem charListLe_antisymm : ∀ xs ys : List Char,
    charListLe xs ys = true → charListLe ys xs = true → xs = ys
  | [], [] => by simp
  | [], _ :: _ => by simp [charListLe]
  | _ :: _, [] => by simp [charListLe]
  | x :: xs, y :: ys => by
    simp only [charListLe]
    by_cases hxy : x = y
    · subst hxy
      simp only [if_pos rfl]
      intro h1 h2
      rw [charListLe_antisymm xs ys h1 h2]
    · have hyx : ¬ y = x := fun e => hxy e.symm
      simp only [if_neg hxy, if_neg hyx, decide_eq_true_eq]
      intro h1 h2
      exact absurd (h1.trans h2) (lt_irrefl x)

/-- Ascending-id string comparison is antisymmetric. -/
theorem strLe_antisymm {a b : String} (h1 : strLe a b = true) (h2 : strLe b a = true) :
    a = b := by
  have h := charListLe_antisymm _ _ h1 h2
  cases a
  cases b
  exact congrArg String.mk h

instance rankLe.total : IsTotal ScoredItem rankLe where
  total a b := by
    rcases Nat.lt_trichotomy a.relevanceScore b.relevanceScore with h | h | h
    · exact Or.inr (Or.inl h)
    · rcases charListLe_total a.id.toList b.id.toList with h2 | h2
      · exact Or.inl (Or.inr ⟨h, h2⟩)
      · exact Or.inr (Or.inr ⟨h.symm, h2⟩)
    · exact Or.inl (Or.inl h)

instance rankLe.trans : IsTrans ScoredItem rankLe where
  trans a b c hab hbc := by
    rcases hab with h1 | ⟨h1, h1'⟩ <;> rcases hbc with h2 | ⟨h2, h2'⟩
    · exact Or.inl (h2.trans h1)
    · exact Or.inl (h2 ▸ h1)
    · exact Or.inl (h1 ▸ h2)
    · exact Or.inr ⟨h1.trans h2, charListLe_trans _ _ _ h1' h2'⟩

/-- Two sorted lists that are permutations of each other are equal, given
antisymmetry of the order on the elements actually present. -/
theorem eq_of_perm_of_sorted_on {α : Type} {r : α → α → Prop}
    (l₁ l₂ : List α) (hp : l₁.Perm l₂)
    (hanti : ∀ a ∈ l₁, ∀ b ∈ l₁, r a b → r b a → a = b)
    (hs₁ : l₁.Sorted r) (hs₂ : l₂.Sorted r) : l₁ = l₂ := by
  induction l₁ generalizing l₂ with
  | nil => exact (List.Perm.eq_nil hp.symm).symm
  | cons a t ih =>
    cases l₂ with
    | nil => exact absurd (List.Perm.eq_nil hp) (by simp)
    | cons b t₂ =>
      have hab : a = b := by
        by_cases h : a = b
        · exact h
        · have ha₂ : a ∈ b :: t₂ := hp.subset (List.mem_cons_self a t)
          have ha : a ∈ t₂ := (List.mem_cons.mp ha₂).resolve_left h
          have hb₁ : b ∈ a :: t := hp.symm.subset (List.mem_cons_self b t₂)
          have hb : b ∈ t := (List.mem_cons.mp hb₁).resolve_left (fun e => h e.symm)
          have r1 : r a b := List.rel_of_sorted_cons hs₁ b hb
          have r2 : r b a := List.rel_of_sorted_cons hs₂ a ha
          exact hanti a (List.mem_cons_self a t) b hb₁ r1 r2
      subst hab
      have hp' : t.Perm t₂ := hp.cons_inv
      have hanti' : ∀ x ∈ t, ∀ y ∈ t, r x y → r y x → x = y := fun x hx y hy =>
        hanti x (List.mem_cons_of_mem a hx) y (List.mem_cons_of_mem a hy)
      rw [ih t₂ hp' hanti' hs₁.of_cons hs₂.of_cons]

/-- Antisymmetry content of the ranking order: mutually related items agree
on score and id. -/
theorem rankLe_antisymm_keys {a b : ScoredItem} (h1 : rankLe a b) (h2 : rankLe b a) :
    a.relevanceScore = b.relevanceScore ∧ a.id = b.id := by
  rcases h1 with h1 | ⟨h1, h1'⟩ <;> rcases h2 with h2 | ⟨h2, h2'⟩
  · exact absurd (h1.trans h2) (lt_irrefl _)
  · exact absurd (h2 ▸ h1) (lt_irrefl _)
  · exact absurd (h1 ▸ h2) (lt_irrefl _)
  · exact ⟨h1, strLe_antisymm h1' h2'⟩

/-- Every item promoted by Rank & Filter meets the threshold and comes from
the input set. -/
theorem mem_rank {threshold cap : Nat} {l : List ScoredItem} {x : ScoredItem}
    (hx : x ∈ rank_for_deep_dive threshold cap l) :
    threshold ≤ x.relevanceScore ∧ x ∈ l := by
  have h1 : x ∈ (l.filter (fun it => threshold ≤ it.relevanceScore)).insertionSort rankLe :=
    List.mem_of_mem_take hx
  have h2 : x ∈ l.filter (fun it => threshold ≤ it.relevanceScore) :=
    (List.mem_insertionSort rankLe).mp h1
  have h3 := List.mem_filter.mp h2
  exact ⟨by simpa using h3.2, h3.1⟩

/-- The promoted list is sorted by the ranking order. -/
theorem rank_sorted (threshold cap : Nat) (l : List ScoredItem) :
    (rank_for_deep_dive threshold cap l).Sorted rankLe := by
  exact List.Pairwise.sublist (List.take_sublist _ _)
    (List.sorted_insertionSort rankLe _)

/-- The promoted list never exceeds the cap. -/
theorem rank_length_le (threshold cap : Nat) (l : List ScoredItem) :
    (rank_for_deep_dive threshold cap l).length ≤ cap :=
  List.length_take_le _ _

/-- The Deduplicator emits pairwise-distinct ids, none of them already in the
seen-id history. -/
theorem dedupGo_spec : ∀ (cs : List CandidateItem) (seen : List String),
    ((dedupGo cs seen).map (fun c => c.id)).Nodup ∧
    ∀ c ∈ dedupGo cs seen, c.id ∉ seen := by
  intro cs
  induction cs with
  | nil => intro seen; simp [dedupGo]
  | cons c0 rest ih =>
    intro seen
    by_cases h : c0.id ∈ seen
    · simpa only [dedupGo, if_pos h] using ih seen
    · obtain ⟨hnd, hns⟩ := ih (c0.id :: seen)
      simp only [dedupGo, if_neg h]
      refine ⟨?_, ?_⟩
      · rw [List.map_cons, List.nodup_cons]
        refine ⟨?_, hnd⟩
        intro hmem
        obtain ⟨d, hd, hde⟩ := List.mem_map.mp hmem
        exact hns d hd (hde ▸ List.mem_cons_self _ _)
      · intro d hd
        rcases List.mem_cons.mp hd with rfl | hd'
        · exact h
        · exact fun hseen => hns d hd' (List.mem_cons_of_mem _ hseen)

/-- Every input candidate's id is either in the seen-id history or among the
ids kept by the Deduplicator. -/
theorem dedupGo_covers : ∀ (cs : List CandidateItem) (seen : List String),
    ∀ c ∈ cs, c.id ∈ seen ∨ c.id ∈ (dedupGo cs seen).map (fun d => d.id) := by
  intro cs
  induction cs with
  | nil => intro seen c hc; exact absurd hc (by simp)
  | cons c0 rest ih =>
    intro seen c hc
    by_cases h : c0.id ∈ seen
    · simp only [dedupGo, if_pos h]
      rcases List.mem_cons.mp hc with rfl | hc'
      · exact Or.inl h
      · exact ih seen c hc'
    · simp only [dedupGo, if_neg h, List.map_cons]
      rcases List.mem_cons.mp hc with rfl | hc'
      · exact Or.inr (List.mem_cons_self _ _)
      · rcases ih (c0.id :: seen) c hc' with hs | hm
        · rcases List.mem_cons.mp hs with he | hs'
          · exact Or.inr (he ▸ List.mem_cons_self _ _)
          · exact Or.inl hs'
        · exact Or.inr (List.mem_cons_of_mem _ hm)

/-- Candidates whose ids are all in the history are all dropped. -/
theorem dedupGo_all_seen : ∀ (cs : List CandidateItem) (s : List String),
    (∀ c ∈ cs, c.id ∈ s) → dedupGo cs s = [] := by
  intro cs
  induction cs with
  | nil => intro s _; rfl
  | cons c rest ih =>
    intro s hall
    have hc : c.id ∈ s := hall c (List.mem_cons_self _ _)
    simp only [dedupGo, if_pos hc]
    exact ih s (fun d hd => hall d (List.mem_cons_of_mem _ hd))

/-- The Bulk Scorer preserves the item's stable id. -/
theorem bulkScore_id (classify : CandidateItem → Option (Int × String × List String × Bool))
    (c : CandidateItem) : (bulkScore classify c).id = c.id := by
  unfold bulkScore
  cases h : classify c with
  | none => rfl
  | some v => obtain ⟨s, su, tp, rc⟩ := v; rfl

/-- Every score the Bulk Scorer produces lies in the declared scale. -/
theorem bulkScore_le (classify : CandidateItem → Option (Int × String × List String × Bool))
    (c : CandidateItem) : (bulkScore classify c).relevanceScore ≤ scoreMax := by
  unfold bulkScore
  cases h : classify c with
  | none => exact Nat.zero_le _
  | some v =>
    obtain ⟨s, su, tp, rc⟩ := v
    exact Int.toNat_le.mpr (min_le_right _ _)

/-- Scoring the deduplicated candidates leaves their id sequence unchanged. -/
theorem scored_ids (classify : CandidateItem → Option (Int × String × List String × Bool))
    (l : List CandidateItem) :
    (l.map (bulkScore classify)).map (fun s => s.id) = l.map (fun c => c.id) := by
  induction l with
  | nil => rfl
  | cons c rest ih =>
    simp only [List.map_cons, ih, bulkScore_id]

/-- The scored set of a pipeline run has pairwise-distinct ids. -/
theorem pipelineScored_ids_nodup
    (classify : CandidateItem → Option (Int × String × List String × Bool))
    (fetchResults : List (Except String (List CandidateItem)))
    (seen : List String) :
    ((pipelineScored classify fetchResults seen).map (fun s => s.id)).Nodup := by
  unfold pipelineScored dedup
  rw [scored_ids]
  exact (dedupGo_spec _ _).1

/-- A promoted entry carries the scored item's relevance score unchanged. -/
theorem mkPromotedEntry_score (analyze : ScoredItem → Option Analysis)
    (it : ScoredItem) : (mkPromotedEntry analyze it).relevanceScore = it.relevanceScore := by
  unfold mkPromotedEntry
  cases analyze it <;> rfl

/-- A promoted entry keeps the scored item's stable id. -/
theorem mkPromotedEntry_id (analyze : ScoredItem → Option Analysis)
    (it : ScoredItem) : (mkPromotedEntry analyze it).id = it.id := by
  unfold mkPromotedEntry
  cases analyze it <;> rfl

/-- Assembling batch entries leaves the id sequence unchanged. -/
theorem entries_ids (promoted : List ScoredItem) (analyze : ScoredItem → Option Analysis) :
    ∀ l : List ScoredItem,
    ((l.map (fun it =>
        if promoted.any (fun p => p.id == it.id) then mkPromotedEntry analyze it
        else mkPlainEntry it)).map (fun b => b.id)) = l.map (fun s => s.id)
  | [] => rfl
  | it :: rest => by
    simp only [List.map_cons, entries_ids promoted analyze rest]
    congr 1
    by_cases hm : promoted.any (fun p => p.id == it.id) = true
    · rw [if_pos hm, mkPromotedEntry_id]
    · rw [if_neg hm]
      rfl

/-- Staging writes never touch the published archive. -/
theorem runOps_stages_published : ∀ (l : List PersistOp) (s : StorageState),
    (∀ op ∈ l, ∃ p it, op = PersistOp.stage p it) →
    (runOps s l).published = s.published := by
  intro l
  induction l with
  | nil => intro s _; rfl
  | cons op rest ih =>
    intro s hall
    obtain ⟨p, it, rfl⟩ := hall op (List.mem_cons_self _ _)
    have : runOps s (PersistOp.stage p it :: rest) = runOps { s with temp := some (p, it) } rest := rfl
    rw [this, ih _ (fun o ho => hall o (List.mem_cons_of_mem _ ho))]

/-- Every operation of the plan except the final one is a staging write. -/
theorem persistPlan_take_stages (b : RunBatch) (k : Nat)
    (hk : k ≤ b.items.length) :
    ∀ op ∈ (persistPlan b).take k, ∃ p it, op = PersistOp.stage p it := by
  intro op hop
  unfold persistPlan at hop
  rw [List.take_append_of_le_length (by simpa using hk)] at hop
  have hop' := List.mem_of_mem_take hop
  obtain ⟨n, _, rfl⟩ := List.mem_map.mp hop'
  exact ⟨_, _, rfl⟩

/-- C1: Rank & Filter returns exactly the items whose relevanceScore is at or
above the threshold, sorted descending by relevanceScore with ties broken by
ascending id, truncated to the first cap items; with cap 1 and two items both
scored 7 carrying ids "b" then "a" in encounter order, only the item with id
"a" is promoted. -/
theorem rank_filter_selects_sorted_capped (threshold cap : Nat)
    (items : List ScoredItem) :
    (∃ s : List ScoredItem,
      s.Perm (items.filter (fun it => threshold ≤ it.relevanceScore)) ∧
      s.Sorted rankLe ∧
      rank_for_deep_dive threshold cap items = s.take cap) ∧
    rank_for_deep_dive 7 1 [exItemB, exItemA] = [exItemA] := by
  refine ⟨⟨(items.filter (fun it => threshold ≤ it.relevanceScore)).insertionSort rankLe,
    List.perm_insertionSort rankLe _, List.sorted_insertionSort rankLe _, ?_⟩, ?_⟩
  · rfl
  · decide

/-- C2: Rank & Filter is a pure function of the input set: for a fixed
threshold and cap, any two encounter orders of the same set of ScoredItems
produce the identical output list.  (The set hypothesis: items are identified
by their stable id, so two list entries with the same id are the same item.) -/
theorem rank_filter_deterministic (threshold cap : Nat) (l₁ l₂ : List ScoredItem)
    (hperm : l₁.Perm l₂)
    (hids : ∀ a ∈ l₁, ∀ b ∈ l₁, a.id = b.id → a = b) :
    rank_for_deep_dive threshold cap l₁ = rank_for_deep_dive threshold cap l₂ := by
  unfold rank_for_deep_dive
  congr 1
  refine eq_of_perm_of_sorted_on _ _ ?_ ?_
    (List.sorted_insertionSort rankLe _) (List.sorted_insertionSort rankLe _)
  · exact (List.perm_insertionSort rankLe _).trans
      ((hperm.filter _).trans (List.perm_insertionSort rankLe _).symm)
  · intro a ha b hb hab hba
    have ha' : a ∈ l₁ := List.mem_of_mem_filter ((List.mem_insertionSort rankLe).mp ha)
    have hb' : b ∈ l₁ := List.mem_of_mem_filter ((List.mem_insertionSort rankLe).mp hb)
    exact hids a ha' b hb' (rankLe_antisymm_keys hab hba).2

/-- Witness for C2 at a concrete permuted pair of inputs. -/
theorem rank_filter_deterministic_witness :
    [exItemB, exItemA].Perm [exItemA, exItemB] ∧
    (∀ a ∈ [exItemB, exItemA], ∀ b ∈ [exItemB, exItemA], a.id = b.id → a = b) ∧
    rank_for_deep_dive 7 1 [exItemB, exItemA] = rank_for_deep_dive 7 1 [exItemA, exItemB] :=
  ⟨by decide, by decide,
    rank_filter_deterministic 7 1 [exItemB, exItemA] [exItemA, exItemB]
      (by decide) (by decide)⟩

/-- C3: in any run, an Analysis is attached only to items whose
relevanceScore is at or above the threshold, the number of items with a
non-null analysis never exceeds the cap, and the promoted items are chosen
in descending score order with the stable ascending-id tie-break. -/
theorem analysis_gated_and_capped (threshold cap : Nat)
    (classify : CandidateItem → Option (Int × String × List String × Bool))
    (analyze : ScoredItem → Option Analysis)
    (fetchResults : List (Except String (List CandidateItem)))
    (seen : List String) (period : String) :
    (∀ b ∈ (runPipeline threshold cap classify analyze fetchResults seen period).items,
        b.analysis.isSome = true → threshold ≤ b.relevanceScore) ∧
    ((runPipeline threshold cap classify analyze fetchResults seen period).items.filter
        (fun b => b.analysis.isSome)).length ≤ cap ∧
    (rank_for_deep_dive threshold cap (pipelineScored classify fetchResults seen)).Sorted rankLe := by
  have hnd : ((pipelineScored classify fetchResults seen).map (fun s => s.id)).Nodup :=
    pipelineScored_ids_nodup classify fetchResults seen
  have hitems : (runPipeline threshold cap classify analyze fetchResults seen period).items =
      (((pipelineScored classify fetchResults seen).insertionSort rankLe).map (fun it =>
        if (rank_for_deep_dive threshold cap (pipelineScored classify fetchResults seen)).any
            (fun p => p.id == it.id) then
          mkPromotedEntry analyze it
        else mkPlainEntry it)) := rfl
  rw [hitems]
  refine ⟨?_, ?_, rank_sorted threshold cap _⟩
  · intro b hb
    obtain ⟨it, hit, rfl⟩ := List.mem_map.mp hb
    by_cases hm : (rank_for_deep_dive threshold cap (pipelineScored classify fetchResults seen)).any
        (fun p => p.id == it.id) = true
    · rw [if_pos hm]
      intro _
      obtain ⟨p, hp, hpe⟩ := List.any_eq_true.mp hm
      have hpid : p.id = it.id := by simpa using hpe
      obtain ⟨hth, hpmem⟩ := mem_rank hp
      have hitmem : it ∈ pipelineScored classify fetchResults seen :=
        (List.mem_insertionSort rankLe).mp hit
      have hpe2 : p = it := List.inj_on_of_nodup_map hnd hpmem hitmem hpid
      rw [mkPromotedEntry_score]
      exact hpe2 ▸ hth
    · rw [if_neg hm]
      intro habs
      simp [mkPlainEntry] at habs
  · rw [← List.countP_eq_length_filter, List.countP_map]
    have hstep : ((pipelineScored classify fetchResults seen).insertionSort rankLe).countP
        ((fun b => b.analysis.isSome) ∘ (fun it =>
          if (rank_for_deep_dive threshold cap (pipelineScored classify fetchResults seen)).any
              (fun p => p.id == it.id) then
            mkPromotedEntry analyze it
          else mkPlainEntry it)) ≤
        ((pipelineScored classify fetchResults seen).insertionSort rankLe).countP
          (fun it => (rank_for_deep_dive threshold cap (pipelineScored classify fetchResults seen)).any
            (fun p => p.id == it.id)) := by
      refine List.countP_mono_left ?_
      intro it _ hsome
      by_cases hm : (rank_for_deep_dive threshold cap (pipelineScored classify fetchResults seen)).any
          (fun p => p.id == it.id) = true
      · exact hm
      · exfalso
        simp only [Function.comp, if_neg hm] at hsome
        simp [mkPlainEntry] at hsome
    refine le_trans hstep ?_
    rw [List.countP_eq_length_filter]
    have hnd2 : (((pipelineScored classify fetchResults seen).insertionSort rankLe).map
        (fun s => s.id)).Nodup :=
      (((List.perm_insertionSort rankLe (pipelineScored classify fetchResults seen)).map
        (fun s => s.id)).symm).nodup hnd
    have hfilnd : ((((pipelineScored classify fetchResults seen).insertionSort rankLe).filter
        (fun it => (rank_for_deep_dive threshold cap (pipelineScored classify fetchResults seen)).any
          (fun p => p.id == it.id))).map (fun s => s.id)).Nodup :=
      hnd2.sublist ((List.filter_sublist _).map _)
    have hsubset : ((((pipelineScored classify fetchResults seen).insertionSort rankLe).filter
        (fun it => (rank_for_deep_dive threshold cap (pipelineScored classify fetchResults seen)).any
          (fun p => p.id == it.id))).map (fun s => s.id)) ⊆
        ((rank_for_deep_dive threshold cap (pipelineScored classify fetchResults seen)).map
          (fun s => s.id)) := by
      intro x hx
      obtain ⟨it, hit, rfl⟩ := List.mem_map.mp hx
      have hq := (List.mem_filter.mp hit).2
      obtain ⟨p, hp, hpe⟩ := List.any_eq_true.mp hq
      have hpid : p.id = it.id := by simpa using hpe
      exact hpid ▸ List.mem_map_of_mem _ hp
    have hlen := (hfilnd.subperm hsubset).length_le
    rw [List.length_map, List.length_map] at hlen
    exact le_trans hlen (rank_length_le threshold cap _)

/-- Witness for C3 at a concrete run. -/
theorem analysis_gated_and_capped_witness :
    (∀ b ∈ (runPipeline 7 2 exClassify exAnalyzeNone exFetch5 [] "2025-W05").items,
        b.analysis.isSome = true → 7 ≤ b.relevanceScore) ∧
    ((runPipeline 7 2 exClassify exAnalyzeNone exFetch5 [] "2025-W05").items.filter
        (fun b => b.analysis.isSome)).length ≤ 2 ∧
    (rank_for_deep_dive 7 2 (pipelineScored exClassify exFetch5 [])).Sorted rankLe :=
  analysis_gated_and_capped 7 2 exClassify exAnalyzeNone exFetch5 [] "2025-W05"

/-- C4: every CandidateItem surviving deduplication produces exactly one
ScoredItem, and the final RunBatch contains exactly one item entry per
surviving candidate: the counts after dedup, after scoring and in the
RunBatch coincide. -/
theorem no_silent_drops (threshold cap : Nat)
    (classify : CandidateItem → Option (Int × String × List String × Bool))
    (analyze : ScoredItem → Option Analysis)
    (fetchResults : List (Except String (List CandidateItem)))
    (seen : List String) (period : String) :
    (pipelineScored classify fetchResults seen).length =
      (dedup (collectFetched fetchResults) seen).new.length ∧
    (runPipeline threshold cap classify analyze fetchResults seen period).items.length =
      (dedup (collectFetched fetchResults) seen).new.length ∧
    ((runPipeline threshold cap classify analyze fetchResults seen period).items.map
        (fun b => b.id)).Perm
      ((dedup (collectFetched fetchResults) seen).new.map (fun c => c.id)) := by
  refine ⟨List.length_map _ _, ?_, ?_⟩
  · show (((pipelineScored classify fetchResults seen).insertionSort rankLe).map _).length = _
    rw [List.length_map, List.length_insertionSort]
    exact List.length_map _ _
  · show ((((pipelineScored classify fetchResults seen).insertionSort rankLe).map
      (fun it =>
        if (rank_for_deep_dive threshold cap (pipelineScored classify fetchResults seen)).any
            (fun p => p.id == it.id) then
          mkPromotedEntry analyze it
        else mkPlainEntry it)).map (fun b => b.id)).Perm
      ((dedup (collectFetched fetchResults) seen).new.map (fun c => c.id))
    rw [entries_ids]
    have h1 : (((pipelineScored classify fetchResults seen).insertionSort rankLe).map
        (fun s => s.id)).Perm ((pipelineScored classify fetchResults seen).map (fun s => s.id)) :=
      (List.perm_insertionSort rankLe _).map _
    rw [pipelineScored, scored_ids] at h1
    exact h1

/-- C5: running the Deduplicator a second time, with the seen-id registry as
written back by the first run, yields an empty new set; and re-running with
the same arguments yields the same result (it is a pure function). -/
theorem dedup_idempotent (cs : List CandidateItem) (seen : List String) :
    (dedup cs (dedup cs seen).updatedSeen).new = [] ∧
    dedup cs seen = dedup cs seen := by
  refine ⟨?_, rfl⟩
  show dedupGo cs (dedup cs seen).updatedSeen = []
  apply dedupGo_all_seen
  intro c hc
  show c.id ∈ seen ++ (dedupGo cs seen).map (fun d => d.id)
  rcases dedupGo_covers cs seen c hc with h | h
  · exact List.mem_append.mpr (Or.inl h)
  · exact List.mem_append.mpr (Or.inr h)

/-- C6: an item whose classifier output has a malformed or missing score is
kept — with relevanceScore 0 and scoringFailed set — rather than dropped:
the scored list keeps one entry per candidate, and the failed candidate's
entry is present with score 0, failure flag, and its identity preserved. -/
theorem scoring_failure_keeps_item
    (classify : CandidateItem → Option (Int × String × List String × Bool))
    (cands : List CandidateItem) (c : CandidateItem)
    (hc : c ∈ cands) (hfail : classify c = none) :
    (cands.map (bulkScore classify)).length = cands.length ∧
    bulkScore classify c ∈ cands.map (bulkScore classify) ∧
    (bulkScore classify c).relevanceScore = 0 ∧
    (bulkScore classify c).scoringFailed = true ∧
    (bulkScore classify c).id = c.id := by
  refine ⟨List.length_map _ _, List.mem_map_of_mem _ hc, ?_, ?_, bulkScore_id _ _⟩
  · unfold bulkScore
    rw [hfail]
  · unfold bulkScore
    rw [hfail]

/-- Witness for C6 at a concrete failing candidate. -/
theorem scoring_failure_keeps_item_witness :
    exCand "a" ∈ [exCand "a"] ∧ exClassifyNone (exCand "a") = none ∧
    (([exCand "a"].map (bulkScore exClassifyNone)).length = [exCand "a"].length ∧
     bulkScore exClassifyNone (exCand "a") ∈ [exCand "a"].map (bulkScore exClassifyNone) ∧
     (bulkScore exClassifyNone (exCand "a")).relevanceScore = 0 ∧
     (bulkScore exClassifyNone (exCand "a")).scoringFailed = true ∧
     (bulkScore exClassifyNone (exCand "a")).id = (exCand "a").id) :=
  ⟨by decide, rfl,
    scoring_failure_keeps_item exClassifyNone [exCand "a"] (exCand "a") (by decide) rfl⟩

/-- C7: a failing adapter contributes zero items and does not abort the run
(dropping the failure from the adapter results changes neither the fetched
items nor the successful-source count), and in the concrete five-adapter run
with one timeout the batch holds the four successful adapters' items and
stats.sourcesChecked is 4, not 5. -/
theorem adapter_failure_isolated
    (before after : List (Except String (List CandidateItem))) (e : String) :
    collectFetched (before ++ Except.error e :: after) = collectFetched (before ++ after) ∧
    countOk (before ++ Except.error e :: after) = countOk (before ++ after) ∧
    (runPipeline 7 5 exClassify exAnalyzeNone exFetch5 [] "2025-W05").stats.sourcesChecked = 4 ∧
    ((runPipeline 7 5 exClassify exAnalyzeNone exFetch5 [] "2025-W05").items.map
      (fun b => b.id)) = ["a", "b", "c", "d"] := by
  refine ⟨?_, ?_, by decide, by decide⟩
  · unfold collectFetched
    rw [List.foldr_append, List.foldr_append]
    rfl
  · unfold countOk
    rw [List.filter_append, List.filter_append, List.filter_cons]
    simp

/-- C9: there is a single declared scale for relevanceScore (0..scoreMax),
and every score produced by Tier-1, compared against the filter threshold,
or persisted in the RunBatch lies in that range. -/
theorem score_scale_consistent (threshold cap : Nat)
    (classify : CandidateItem → Option (Int × String × List String × Bool))
    (analyze : ScoredItem → Option Analysis)
    (fetchResults : List (Except String (List CandidateItem)))
    (seen : List String) (period : String) :
    (∀ s ∈ pipelineScored classify fetchResults seen, s.relevanceScore ≤ scoreMax) ∧
    (∀ x ∈ rank_for_deep_dive threshold cap (pipelineScored classify fetchResults seen),
        threshold ≤ x.relevanceScore ∧ x.relevanceScore ≤ scoreMax) ∧
    (∀ b ∈ (runPipeline threshold cap classify analyze fetchResults seen period).items,
        b.relevanceScore ≤ scoreMax) := by
  have h1 : ∀ s ∈ pipelineScored classify fetchResults seen, s.relevanceScore ≤ scoreMax := by
    intro s hs
    obtain ⟨c, _, rfl⟩ := List.mem_map.mp hs
    exact bulkScore_le _ _
  refine ⟨h1, ?_, ?_⟩
  · intro x hx
    obtain ⟨hth, hmem⟩ := mem_rank hx
    exact ⟨hth, h1 x hmem⟩
  · intro b hb
    have hb' : b ∈ (((pipelineScored classify fetchResults seen).insertionSort rankLe).map
        (fun it =>
          if (rank_for_deep_dive threshold cap (pipelineScored classify fetchResults seen)).any
              (fun p => p.id == it.id) then
            mkPromotedEntry analyze it
          else mkPlainEntry it)) := hb
    obtain ⟨it, hit, rfl⟩ := List.mem_map.mp hb'
    have hmem : it ∈ pipelineScored classify fetchResults seen :=
      (List.mem_insertionSort rankLe).mp hit
    by_cases hm : (rank_for_deep_dive threshold cap (pipelineScored classify fetchResults seen)).any
        (fun p => p.id == it.id) = true
    · rw [if_pos hm, mkPromotedEntry_score]
      exact h1 it hmem
    · rw [if_neg hm]
      exact h1 it hmem

/-- C8: persisting a RunBatch is all-or-nothing: executing any proper prefix
of the persister's plan (the process killed before the publish) leaves every
period's visible document exactly as it was — the previous good batch or
nothing, never a partial one; a completed run publishes the full batch; other
periods' published batches are never mutated or deleted; and a storage
failure exits non-zero leaving nothing half-written visible. -/
theorem atomic_publish (s : StorageState) (b : RunBatch) (k : Nat) (p : String)
    (hk : k < (persistPlan b).length) :
    readVisible (runOps s ((persistPlan b).take k)) p = readVisible s p ∧
    readVisible (runOps s (persistPlan b)) b.period = some b ∧
    (p ≠ b.period → readVisible (runOps s (persistPlan b)) p = readVisible s p) ∧
    (persist false s b).2 ≠ 0 ∧
    readVisible (persist false s b).1 p = readVisible s p ∧
    (persist true s b).2 = 0 := by
  have hlen : (persistPlan b).length = b.items.length + 1 := by
    unfold persistPlan
    rw [List.length_append, List.length_map, List.length_range]
    rfl
  have hk' : k ≤ b.items.length := by omega
  have h1 : (runOps s ((persistPlan b).take k)).published = s.published :=
    runOps_stages_published _ s (persistPlan_take_stages b k hk')
  have hsplit : runOps s (persistPlan b) =
      applyOp (runOps s ((List.range b.items.length).map
        (fun n => PersistOp.stage b.period (b.items.take (n + 1)))))
        (PersistOp.publishTo b.period b) := by
    unfold persistPlan runOps
    rw [List.foldl_append]
    rfl
  have hstages : (runOps s ((List.range b.items.length).map
      (fun n => PersistOp.stage b.period (b.items.take (n + 1))))).published =
      s.published := by
    apply runOps_stages_published
    intro op hop
    obtain ⟨n, _, rfl⟩ := List.mem_map.mp hop
    exact ⟨_, _, rfl⟩
  have hfail : (persist false s b).1.published = s.published := by
    show (runOps s ((persistPlan b).take b.items.length)).published = s.published
    exact runOps_stages_published _ s (persistPlan_take_stages b _ le_rfl)
  refine ⟨?_, ?_, ?_, ?_, ?_, rfl⟩
  · unfold readVisible
    rw [h1]
  · rw [hsplit]
    unfold readVisible applyOp
    simp
  · intro hne
    rw [hsplit]
    unfold readVisible applyOp
    have hbp : ((b.period, b).fst == p) = false :=
      beq_eq_false_iff_ne.mpr (fun h => hne h.symm)
    rw [List.find?_cons_of_neg _ (by simpa using hbp), hstages]
  · show (1 : Nat) ≠ 0
    exact Nat.one_ne_zero
  · unfold readVisible
    rw [hfail]

/-- Witness for C8 at a concrete store, batch and prefix length. -/
theorem atomic_publish_witness :
    0 < (persistPlan exBatch).length ∧
    (readVisible (runOps exStore ((persistPlan exBatch).take 0)) "2025-W04" =
        readVisible exStore "2025-W04" ∧
      readVisible (runOps exStore (persistPlan exBatch)) exBatch.period = some exBatch ∧
      ("2025-W04" ≠ exBatch.period →
        readVisible (runOps exStore (persistPlan exBatch)) "2025-W04" =
          readVisible exStore "2025-W04") ∧
      (persist false exStore exBatch).2 ≠ 0 ∧
      readVisible (persist false exStore exBatch).1 "2025-W04" =
        readVisible exStore "2025-W04" ∧
      (persist true exStore exBatch).2 = 0) :=
  ⟨by decide, atomic_publish exStore exBatch 0 "2025-W04" (by decide)⟩

/-- Witness for C9 at a concrete run. -/
theorem score_scale_consistent_witness :
    (∀ s ∈ pipelineScored exClassify exFetch5 [], s.relevanceScore ≤ scoreMax) ∧
    (∀ x ∈ rank_for_deep_dive 7 5 (pipelineScored exClassify exFetch5 []),
        7 ≤ x.relevanceScore ∧ x.relevanceScore ≤ scoreMax) ∧
    (∀ b ∈ (runPipeline 7 5 exClassify exAnalyzeNone exFetch5 [] "2025-W05").items,
        b.relevanceScore ≤ scoreMax) :=
  score_scale_consistent 7 5 exClassify exAnalyzeNone exFetch5 [] "2025-W05"

end Pipeline

namespace ContentConfig

/-- The claim's date condition agrees with the parser's required-string
reading of the date field. -/
theorem date_match_eq (o : Option Json) :
    (match o with | some (Json.str s) => dateMatches s | _ => false) =
      (match reqString o with | some s => dateMatches s | none => false) := by
  cases o with
  | none => rfl
  | some j => cases j <;> rfl

/-- The claim's type condition agrees with the parser's required-string
reading of the type field. -/
theorem type_match_eq (o : Option Json) :
    (match o with | some (Json.str s) => s == "topic" || s == "article" | _ => false) =
      (match reqString o with | some s => s == "topic" || s == "article" | none => false) := by
  cases o with
  | none => rfl
  | some j => cases j <;> rfl

/-- The claim's source_url condition agrees with the parser's optional-URL
field handler. -/
theorem url_match_eq (v : String → Bool) (o : Option Json) :
    (match o with | none => true | some (Json.str s) => v s | some _ => false) =
      (optUrl v o).isSome := by
  cases o with
  | none => rfl
  | some j =>
    cases j with
    | str s => cases hv : v s <;> simp [optUrl, hv]
    | null => rfl
    | bool b => rfl
    | num n => rfl
    | arr xs => rfl

/-- The claim's shared_by condition agrees with the parser's optional-string
field handler. -/
theorem sb_match_eq (o : Option Json) :
    (match o with | none => true | some (Json.str _) => true | some _ => false) =
      (optString o).isSome := by
  cases o with
  | none => rfl
  | some j => cases j <;> rfl

/-- The schema accepts exactly the frontmatter objects satisfying the
amended acceptance condition. -/
theorem articlesParse_isSome_eq (v : String → Bool) (fm : Frontmatter) :
    (articlesParse v fm).isSome = amendedAccepts v fm := by
  unfold articlesParse amendedAccepts claimAccepts
  rw [date_match_eq, type_match_eq, url_match_eq, sb_match_eq]
  cases h1 : reqString fm.title <;> cases h2 : reqString fm.description <;>
    cases h3 : reqString fm.category <;> cases h4 : reqString fm.date <;>
    cases h5 : reqString fm.type <;> cases h6 : optUrl v fm.source_url <;>
    cases h7 : optString fm.shared_by <;> cases h8 : tagsField fm.tags <;>
    cases h9 : featuredField fm.featured <;>
    first
      | rfl
      | (simp_all; done)
      | (simp_all; split_ifs <;> simp_all)

/-- On acceptance, the entry's tags and featured fields are exactly what the
tags and featured field handlers produced. -/
theorem articlesParse_fields (v : String → Bool) (fm : Frontmatter) (a : ArticleEntry)
    (ha : articlesParse v fm = some a) :
    tagsField fm.tags = some a.tags ∧ featuredField fm.featured = some a.featured := by
  unfold articlesParse at ha
  split at ha
  rotate_left
  · exact absurd ha (by simp)
  split at ha
  rotate_left
  · exact absurd ha (by simp)
  split at ha
  rotate_left
  · exact absurd ha (by simp)
  obtain rfl := Option.some.inj ha
  exact ⟨by simp_all, by simp_all⟩

/-- C10 counterexample: a frontmatter satisfying every condition the claim
lists — valid title, description, category, date, type, and absent
source_url and shared_by — but whose tags field is the number 3 meets the
claim's acceptance condition yet is rejected by the schema, refuting the
claim's "if" direction. -/
theorem articles_schema_claim_counterexample :
    claimAccepts exUrlOk exBadTagsFm = true ∧
    (articlesParse exUrlOk exBadTagsFm).isSome = false :=
  ⟨by decide, by decide⟩

/-- C10 (amended): the articles schema accepts a frontmatter object iff the
claim's conditions hold and, additionally, tags, when present, is an array
of strings and featured, when present, is a boolean; on acceptance an
omitted tags defaults to the empty array and an omitted featured to false,
so every accepted entry has a defined tags array and featured boolean. -/
theorem articles_schema_accepts (v : String → Bool) (fm : Frontmatter) :
    (articlesParse v fm).isSome = amendedAccepts v fm ∧
    (∀ a, articlesParse v fm = some a →
      (fm.tags = none → a.tags = []) ∧ (fm.featured = none → a.featured = false) ∧
      tagsField fm.tags = some a.tags ∧ featuredField fm.featured = some a.featured) := by
  refine ⟨articlesParse_isSome_eq v fm, ?_⟩
  intro a ha
  obtain ⟨ht, hf⟩ := articlesParse_fields v fm a ha
  refine ⟨?_, ?_, ht, hf⟩
  · intro hnone
    rw [hnone] at ht
    exact (Option.some.inj ht).symm
  · intro hnone
    rw [hnone] at hf
    exact (Option.some.inj hf).symm

/-- Witness for the amended C10 theorem at a concrete accepted frontmatter. -/
theorem articles_schema_accepts_witness :
    ((articlesParse exUrlOk exGoodFm).isSome = amendedAccepts exUrlOk exGoodFm ∧
     (∀ a, articlesParse exUrlOk exGoodFm = some a →
      (exGoodFm.tags = none → a.tags = []) ∧
      (exGoodFm.featured = none → a.featured = false) ∧
      tagsField exGoodFm.tags = some a.tags ∧
      featuredField exGoodFm.featured = some a.featured)) ∧
    (articlesParse exUrlOk exGoodFm).isSome = true :=
  ⟨articles_schema_accepts exUrlOk exGoodFm, by decide⟩

end ContentConfig
